import Mathlib

/-!
Shallow embedding of the Particl proof-of-stake kernel validator
(`src/pos/kernel.cpp`).

Machine integers are modelled as `Nat` (with explicit `% 2 ^ w` where the
C++ code truncates) and `Int` for signed 64-bit amounts and heights.  The
chain hash function (`Hash` from `hash.h`, outside the provided sources) is
a parameter `H : List Nat → Nat` over byte streams, reduced `% 2 ^ 256` at
the point of use since `Hash` returns a 256-bit word.  External chain state
(UTXO set, spent-coin archive, active-chain array, chain parameters, script
verifier) is bundled into an `Env` record of oracle functions, mirroring
the narrow interfaces `kernel.cpp` consumes.
-/

set_option autoImplicit false

namespace PosKernel

/-- Output types of `CTxOutBase` (`OUTPUT_STANDARD`, `OUTPUT_DATA`, other
confidential kinds); only these three classes matter to `kernel.cpp`. -/
inductive OutputType where
  | standard
  | data
  | other
deriving DecidableEq, Repr

/-- A script is a byte sequence. -/
abbrev Script := List Nat

/-- `COutPoint {hash : u256, n : u32}`. -/
structure OutPoint where
  hash : Nat
  n : Nat
deriving DecidableEq, Repr

/-- The `CTxOut` inside a `Coin`: value and scriptPubKey. -/
structure CoinOut where
  nValue : Int
  scriptPubKey : Script
deriving DecidableEq, Repr

/-- A resolved coin: output, creation height, output type, and whether the
live UTXO entry is spent (`Coin::IsSpent`). -/
structure Coin where
  out : CoinOut
  nHeight : Nat
  nType : OutputType
  isSpent : Bool
deriving DecidableEq, Repr

/-- `SpentCoin {coin, spent_height}` from the spent-coin archive. -/
structure SpentCoin where
  coin : Coin
  spentHeight : Nat
deriving DecidableEq, Repr

/-- A transaction input; only its prevout is inspected by `kernel.cpp`
(the scriptSig/witness go to the external script verifier). -/
structure TxIn where
  prevout : OutPoint
deriving DecidableEq, Repr

/-- An entry of `tx.vpout` (`CTxOutBase`): type, value, and an optional
scriptPubKey (`GetPScriptPubKey` may be null). -/
structure TxOutRec where
  nType : OutputType
  nValue : Int
  scriptPubKey : Option Script
deriving DecidableEq, Repr

/-- The coinstake transaction shape consumed by `CheckProofOfStake`. -/
structure Tx where
  isCoinStake : Bool
  vin : List TxIn
  vpout : List TxOutRec
deriving DecidableEq, Repr

/-- `CBlockIndex` fields used by the kernel code: height, 32-bit header
time, and the 256-bit stake modifier. -/
structure BlockIndex where
  nHeight : Nat
  nTime : Nat
  bnStakeModifier : Nat
deriving DecidableEq, Repr

/-- External chain state and parameters consumed by `kernel.cpp`:
UTXO lookup (`CoinsTip().GetCoin`), spent-coin archive
(`pblocktree->ReadSpentCache`), active chain array (`m_chain[h]`),
`GetStakeMinConfirmations`, `MAX_REORG_DEPTH`, `fVerifyingDB`,
`VerifyScript` and `HasIsCoinstakeOp`, and the chain hash `H`. -/
structure Env where
  H : List Nat → Nat
  getCoin : OutPoint → Option Coin
  readSpentCache : OutPoint → Option SpentCoin
  chain : Nat → Option BlockIndex
  stakeMinConfirmations : Nat
  maxReorgDepth : Nat
  fVerifyingDB : Bool
  verifyScript : TxIn → Script → Int → Bool
  hasIsCoinstakeOp : Script → Bool

/-- Modelled from the spec: `decode_compact` (`arith_uint256::SetCompact`,
whose source is outside `src/`).  High byte is the base-256 exponent, low
24 bits the mantissa with the sign bit in bit 23; returns
`(target, negative, overflow)` with the target truncated to 256 bits as in
`arith_uint256`. -/
def decodeCompact (nCompact0 : Nat) : Nat × Bool × Bool :=
  let nCompact := nCompact0 % 2 ^ 32
  let nSize := nCompact >>> 24
  let mant := nCompact &&& 0x007fffff
  if nSize ≤ 3 then
    let nWord := mant >>> (8 * (3 - nSize))
    (nWord % 2 ^ 256,
     (!(nWord == 0)) && (!((nCompact &&& 0x00800000) == 0)),
     (!(nWord == 0)) && (decide (34 < nSize) ||
       (decide (0xff < nWord) && decide (33 < nSize)) ||
       (decide (0xffff < nWord) && decide (32 < nSize))))
  else
    ((mant <<< (8 * (nSize - 3))) % 2 ^ 256,
     (!(mant == 0)) && (!((nCompact &&& 0x00800000) == 0)),
     (!(mant == 0)) && (decide (34 < nSize) ||
       (decide (0xff < mant) && decide (33 < nSize)) ||
       (decide (0xffff < mant) && decide (32 < nSize))))

/-- Modelled from the spec: serialization of a `u32` as 4 little-endian
bytes (`CDataStream <<` from `serialize.h`, outside `src/`). -/
def ser32LE (n : Nat) : List Nat :=
  [n % 256, n / 256 % 256, n / 256 ^ 2 % 256, n / 256 ^ 3 % 256]

/-- Modelled from the spec: serialization of a `u256` as 32 little-endian
bytes (`CDataStream <<` for `uint256`, outside `src/`). -/
def ser256LE (n : Nat) : List Nat :=
  (List.range 32).map fun i => n / 256 ^ i % 256

/-- The kernel-hash preimage byte stream, in the order written by
`CheckStakeKernelHash` (kernel.cpp lines 156-159):
`ss << bnStakeModifier; ss << nBlockFromTime << prevout.hash << prevout.n << nTime`. -/
def kernelPreimage (modifier nBlockFromTime prevoutHash prevoutN nTime : Nat) : List Nat :=
  ser256LE modifier ++ ser32LE nBlockFromTime ++ ser256LE prevoutHash ++
    ser32LE prevoutN ++ ser32LE nTime

/-- The weighted target computed by `CheckStakeKernelHash` (lines 145-150):
the decoded compact target multiplied by the stake amount (converted
`int64 → u64 → arith_uint256`), the product truncated to 256 bits by
`arith_uint256::operator*=`. -/
def weightedTarget (nBits : Nat) (amount : Int) : Nat :=
  ((decodeCompact nBits).1 * (amount.emod (2 ^ 64)).toNat) % 2 ^ 256

/-- Result of `CheckStakeKernelHash`, distinguishing its return points:
the nTime-violation early error, the `SetCompact` failure error, the
target-comparison failure (with the computed hash and weighted target, as
written to the out-parameters), and success. -/
inductive SKHResult where
  | nTimeViolation
  | setCompactFailed
  | kernelFailed (hashPos bnTarget : Nat)
  | ok (hashPos bnTarget : Nat)
deriving DecidableEq, Repr

/-- The boolean view of the result, as returned to C++ callers. -/
def SKHResult.isOk : SKHResult → Bool
  | .ok _ _ => true
  | _ => false

/-- The computed proof hash, when the function got far enough to compute
one (out-parameter `hashProofOfStake`). -/
def SKHResult.getHashPos : SKHResult → Option Nat
  | .ok h _ => some h
  | .kernelFailed h _ => some h
  | _ => none

/-- The proof hash `hashProofOfStake` as computed at kernel.cpp lines
156-159: the chain hash of the kernel preimage, a 256-bit word. -/
def kernelHashValue (H : List Nat → Nat) (pindexPrev : BlockIndex)
    (nBlockFromTime : Nat) (prevout : OutPoint) (nTime : Nat) : Nat :=
  H (kernelPreimage pindexPrev.bnStakeModifier nBlockFromTime
    prevout.hash prevout.n nTime) % 2 ^ 256

/-- `CheckStakeKernelHash` (kernel.cpp lines 124-187).  All `u32`
arguments are `Nat` values below `2 ^ 32` as passed by callers; the stake
amount is an `int64`. -/
def checkStakeKernelHash (H : List Nat → Nat) (pindexPrev : BlockIndex)
    (nBits nBlockFromTime : Nat) (prevOutAmount : Int) (prevout : OutPoint)
    (nTime : Nat) : SKHResult :=
  if nTime < nBlockFromTime then .nTimeViolation
  else
    let dc := decodeCompact nBits
    if dc.2.1 || dc.2.2 || (dc.1 == 0) then .setCompactFailed
    else
      let bnWeight := (prevOutAmount.emod (2 ^ 64)).toNat
      let bnTarget := (dc.1 * bnWeight) % 2 ^ 256
      let hashPos := kernelHashValue H pindexPrev nBlockFromTime prevout nTime
      if bnTarget < hashPos then .kernelFailed hashPos bnTarget
      else .ok hashPos bnTarget

/-- Outcome of `CheckProofOfStake`: acceptance, or
`state.Invalid(BlockValidationResult::DOS_n, reason)`. -/
inductive Res where
  | accept
  | reject (dos : Nat) (reason : String)
deriving DecidableEq, Repr

/-- Resolution of the kernel prevout (kernel.cpp lines 247-263): live UTXO
set first, then the spent-coin archive with the reorg-depth bound; on
success returns the coin together with whether `BLOCK_STAKE_KERNEL_SPENT`
is set on the validation state. -/
def resolveKernel (env : Env) (pindexPrev : BlockIndex) (prevout : OutPoint) :
    Sum Res (Coin × Bool) :=
  let fromSpent : Sum Res (Coin × Bool) :=
    match env.readSpentCache prevout with
    | none => .inl (.reject 20 "prevout-not-found")
    | some sc =>
      if (!env.fVerifyingDB) && decide (sc.spentHeight < pindexPrev.nHeight)
          && decide (env.maxReorgDepth < pindexPrev.nHeight - sc.spentHeight)
      then .inl (.reject 100 "invalid-prevout")
      else .inr (sc.coin, true)
  match env.getCoin prevout with
  | none => fromSpent
  | some coin => if coin.isSpent then fromSpent else .inr (coin, false)

/-- Resolution of an extra coinstake input (kernel.cpp lines 311-320):
live UTXO set, then the spent archive with no reorg-depth bound. -/
def resolveExtra (env : Env) (prevout : OutPoint) : Option Coin :=
  match env.getCoin prevout with
  | none => (env.readSpentCache prevout).map SpentCoin.coin
  | some coin =>
    if coin.isSpent then (env.readSpentCache prevout).map SpentCoin.coin
    else some coin

/-- The loop over extra inputs `k >= 1` (kernel.cpp lines 309-330):
resolves each prevout, requires a standard output whose script equals the
kernel script, and accumulates the input value; returns the rejection
otherwise. -/
def sumExtraInputs (env : Env) (vins : List TxIn) (kernelPubKey : Script)
    (amount : Int) : Sum Res Int :=
  match vins with
  | [] => .inr amount
  | txin :: rest =>
    match resolveExtra env txin.prevout with
    | none => .inl (.reject 20 "prevout-not-in-chain")
    | some coin =>
      if coin.nType ≠ OutputType.standard then .inl (.reject 100 "invalid-prevout")
      else if kernelPubKey ≠ coin.out.scriptPubKey then
        .inl (.reject 100 "mixed-prevout-scripts")
      else sumExtraInputs env rest kernelPubKey (amount + coin.out.nValue)

/-- The loop over outputs (kernel.cpp lines 333-346): non-standard outputs
must be data outputs (`none` = `bad-output-type`); sums the values of
standard outputs whose scriptPubKey is present and equals the kernel
script. -/
def sumOutputs (outs : List TxOutRec) (kernelPubKey : Script) (acc : Int) :
    Option Int :=
  match outs with
  | [] => some acc
  | o :: rest =>
    if o.nType ≠ OutputType.standard then
      if o.nType ≠ OutputType.data then none
      else sumOutputs rest kernelPubKey acc
    else
      match o.scriptPubKey with
      | some s =>
        if s = kernelPubKey then sumOutputs rest kernelPubKey (acc + o.nValue)
        else sumOutputs rest kernelPubKey acc
      | none => sumOutputs rest kernelPubKey acc

/-- The coinstake-op output-split check (kernel.cpp lines 307-352): sum
the extra inputs, then the outputs paying the kernel script, and require
the latter to cover the former. -/
def cposTail (env : Env) (tx : Tx) (vinRest : List TxIn) (kernelPubKey : Script)
    (amount : Int) : Res :=
  match sumExtraInputs env vinRest kernelPubKey amount with
  | .inl r => r
  | .inr total =>
    match sumOutputs tx.vpout kernelPubKey 0 with
    | none => .reject 100 "bad-output-type"
    | some nVerify =>
      if nVerify < total then .reject 100 "verify-amount-script-failed"
      else .accept

/-- `CheckProofOfStake` after kernel-coin resolution (kernel.cpp lines
264-354): output-type check, ancestor lookup, depth rule, script
verification, kernel-hash check, and the coinstake-op output-split rule. -/
def cposAfterResolve (env : Env) (pindexPrev : BlockIndex) (tx : Tx)
    (txin : TxIn) (vinRest : List TxIn) (nTime : Int) (nBits : Nat)
    (coin : Coin) : Res :=
  if coin.nType ≠ OutputType.standard then .reject 100 "invalid-prevout"
  else
    match env.chain coin.nHeight with
    | none => .reject 100 "invalid-prevout"
    | some pindex =>
      let nDepth : Int := (pindexPrev.nHeight : Int) - (coin.nHeight : Int)
      let nRequiredDepth : Int :=
        min ((env.stakeMinConfirmations : Int) - 1) ((pindexPrev.nHeight / 2 : Nat) : Int)
      if nDepth < nRequiredDepth then .reject 100 "invalid-stake-depth"
      else
        let kernelPubKey := coin.out.scriptPubKey
        let amount := coin.out.nValue
        let nBlockFromTime := pindex.nTime % 2 ^ 32
        if !(env.verifyScript txin kernelPubKey amount) then
          .reject 100 "verify-cs-script-failed"
        else if !(checkStakeKernelHash env.H pindexPrev nBits nBlockFromTime
            amount txin.prevout ((nTime.emod (2 ^ 32)).toNat)).isOk then
          .reject 1 "check-kernel-failed"
        else if env.hasIsCoinstakeOp kernelPubKey then
          cposTail env tx vinRest kernelPubKey amount
        else .accept

/-- `CheckProofOfStake` (kernel.cpp lines 224-355).  Returns the
validation result together with whether `BLOCK_STAKE_KERNEL_SPENT` was set
on the validation state (the flag is set before later checks, so it is
observable even when a later check rejects). -/
def checkProofOfStake (env : Env) (pindexPrev : BlockIndex) (tx : Tx)
    (nTime : Int) (nBits : Nat) : Res × Bool :=
  match tx.vin with
  | [] => (.reject 100 "malformed-txn", false)
  | txin :: vinRest =>
    if !tx.isCoinStake then (.reject 100 "malformed-txn", false)
    else
      match resolveKernel env pindexPrev txin.prevout with
      | .inl r => (r, false)
      | .inr (coin, spentFlag) =>
        (cposAfterResolve env pindexPrev tx txin vinRest nTime nBits coin, spentFlag)

/-- `CheckKernel` (kernel.cpp lines 365-401), the staker oracle.  The
out-pointer `pBlockTime` is modelled as an optional cell: the write at
line 395 is guarded by `if (pBlockTime)`, but the read `*pBlockTime` at
line 399 is unconditional, so a null pointer makes the call undefined —
modelled as result `none`. -/
def checkKernel (env : Env) (pindexPrev : BlockIndex) (nBits : Nat)
    (nTime : Int) (prevout : OutPoint) (pBlockTime : Option Int) : Option Bool :=
  match env.getCoin prevout with
  | none => some false
  | some coin =>
    if coin.nType ≠ OutputType.standard then some false
    else if coin.isSpent then some false
    else
      match env.chain coin.nHeight with
      | none => some false
      | some pindex =>
        let nRequiredDepth : Int :=
          min ((env.stakeMinConfirmations : Int) - 1) ((pindexPrev.nHeight / 2 : Nat) : Int)
        let nDepth : Int := (pindexPrev.nHeight : Int) - (coin.nHeight : Int)
        if nDepth < nRequiredDepth then some false
        else
          match pBlockTime with
          | none => none
          | some _ =>
            let cell : Int := ((pindex.nTime % 2 ^ 32 : Nat) : Int)
            some (checkStakeKernelHash env.H pindexPrev nBits
              ((cell.emod (2 ^ 32)).toNat) coin.out.nValue prevout
              ((nTime.emod (2 ^ 32)).toNat)).isOk

/-- A concrete script used by the witness scenarios. -/
def cScript : Script := [81]

/-- A concrete unspent standard coin of value 5 at height 0. -/
def cCoin : Coin := ⟨⟨5, cScript⟩, 0, OutputType.standard, false⟩

/-- A concrete chain tip at height 0 with header time 100 and stake
modifier 7. -/
def cPrev : BlockIndex := ⟨0, 100, 7⟩

/-- A concrete kernel prevout. -/
def cOut : OutPoint := ⟨9, 0⟩

/-- The kernel input spending `cOut`. -/
def cTxIn : TxIn := ⟨cOut⟩

/-- A minimal coinstake transaction with just the kernel input. -/
def cTx : Tx := ⟨true, [cTxIn], []⟩

/-- A concrete environment where every check passes: the hash function is
constantly 0, the kernel coin resolves unspent, scripts verify, and the
coinstake-op pattern is absent. -/
def cEnv : Env :=
  { H := fun _ => 0
    getCoin := fun _ => some cCoin
    readSpentCache := fun _ => none
    chain := fun _ => some cPrev
    stakeMinConfirmations := 1
    maxReorgDepth := 100
    fVerifyingDB := false
    verifyScript := fun _ _ _ => true
    hasIsCoinstakeOp := fun _ => false }

/-- A variant of `cEnv` where the kernel script carries the coinstake-op
pattern. -/
def cEnvCs : Env := { cEnv with hasIsCoinstakeOp := fun _ => true }

/-- A variant of `cEnv` where the kernel prevout misses the UTXO set and
hits the spent-coin archive at spent height 0. -/
def cEnvSpent : Env :=
  { cEnv with getCoin := fun _ => none
              readSpentCache := fun _ => some ⟨cCoin, 0⟩ }

/-- A coinstake transaction paying 10 back to the kernel script. -/
def cTxPay : Tx := ⟨true, [cTxIn], [⟨OutputType.standard, 10, some cScript⟩]⟩

/-- A concrete unspent standard coin of value 5 at height 5 (above the tip
`cPrev`, so its stake depth is negative). -/
def cCoinH5 : Coin := ⟨⟨5, cScript⟩, 5, OutputType.standard, false⟩

/-- A variant of `cEnv` whose kernel coin sits at height 5, above the
height-0 tip. -/
def cEnvDeep : Env := { cEnv with getCoin := fun _ => some cCoinH5 }

/-- Spec-side reading of the extra-input rule: every extra input resolves
(UTXO set or archive) to a standard coin whose script equals the kernel
script. -/
def extrasResolve (env : Env) (k : Script) (vins : List TxIn) : Prop :=
  ∀ txin ∈ vins, ∃ c, resolveExtra env txin.prevout = some c ∧
    c.nType = OutputType.standard ∧ c.out.scriptPubKey = k

/-- Sum of the values of the resolved extra inputs (0 for unresolved
entries; under `extrasResolve` every entry resolves). -/
def extrasSum (env : Env) (vins : List TxIn) : Int :=
  (vins.map fun txin =>
    ((resolveExtra env txin.prevout).map fun c => c.out.nValue).getD 0).sum

/-- Spec-side reading of the output-type rule: every output is standard or
data. -/
def outputsWellTyped (outs : List TxOutRec) : Prop :=
  ∀ o ∈ outs, o.nType = OutputType.standard ∨ o.nType = OutputType.data

/-- Sum of the values of standard outputs paying the kernel script. -/
def kernelOutSum (outs : List TxOutRec) (k : Script) : Int :=
  (outs.map fun o =>
    if o.nType = OutputType.standard ∧ o.scriptPubKey = some k then o.nValue
    else 0).sum


theorem kernelPreimage_length (m bft ph pn t : Nat) :
    (kernelPreimage m bft ph pn t).length = 76 := by
  simp [kernelPreimage, ser256LE, ser32LE]

theorem checkStakeKernelHash_eq (H : List Nat → Nat) (P : BlockIndex)
    (nBits bft : Nat) (amt : Int) (po : OutPoint) (t : Nat)
    (htime : ¬ t < bft)
    (hneg : (decodeCompact nBits).2.1 = false)
    (hover : (decodeCompact nBits).2.2 = false)
    (hz : (decodeCompact nBits).1 ≠ 0) :
    checkStakeKernelHash H P nBits bft amt po t =
      if weightedTarget nBits amt < kernelHashValue H P bft po t then
        .kernelFailed (kernelHashValue H P bft po t) (weightedTarget nBits amt)
      else .ok (kernelHashValue H P bft po t) (weightedTarget nBits amt) := by
  have hz' : ((decodeCompact nBits).1 == 0) = false := beq_eq_false_iff_ne.mpr hz
  simp only [checkStakeKernelHash, weightedTarget]
  rw [if_neg htime]
  simp [hneg, hover, hz']

theorem checkStakeKernelHash_isOk_iff (H : List Nat → Nat) (P : BlockIndex)
    (nBits bft : Nat) (amt : Int) (po : OutPoint) (t : Nat)
    (htime : ¬ t < bft)
    (hneg : (decodeCompact nBits).2.1 = false)
    (hover : (decodeCompact nBits).2.2 = false)
    (hz : (decodeCompact nBits).1 ≠ 0) :
    (checkStakeKernelHash H P nBits bft amt po t).isOk = true ↔
      kernelHashValue H P bft po t ≤ weightedTarget nBits amt := by
  rw [checkStakeKernelHash_eq H P nBits bft amt po t htime hneg hover hz]
  split
  · next h => simp [SKHResult.isOk]; omega
  · next h => simp [SKHResult.isOk]; omega

theorem sumExtraInputs_inl (env : Env) (k : Script) (vins : List TxIn) :
    ∀ (a : Int) (r : Res), sumExtraInputs env vins k a = .inl r →
      r = .reject 20 "prevout-not-in-chain" ∨ r = .reject 100 "invalid-prevout" ∨
        r = .reject 100 "mixed-prevout-scripts" := by
  induction vins with
  | nil => intro a r h; simp [sumExtraInputs] at h
  | cons txin rest ih =>
    intro a r h
    simp only [sumExtraInputs] at h
    split at h
    · simp only [Sum.inl.injEq] at h
      exact Or.inl h.symm
    · split at h
      · simp only [Sum.inl.injEq] at h
        exact Or.inr (Or.inl h.symm)
      · split at h
        · simp only [Sum.inl.injEq] at h
          exact Or.inr (Or.inr h.symm)
        · exact ih _ _ h

theorem sumExtraInputs_inr_iff (env : Env) (k : Script) (vins : List TxIn) :
    ∀ (a t : Int), sumExtraInputs env vins k a = .inr t ↔
      (extrasResolve env k vins ∧ t = a + extrasSum env vins) := by
  induction vins with
  | nil =>
    intro a t
    simp only [sumExtraInputs, Sum.inr.injEq, extrasResolve, List.not_mem_nil,
      false_implies, implies_true, true_and, extrasSum, List.map_nil,
      List.sum_nil, add_zero]
    exact eq_comm
  | cons txin rest ih =>
    intro a t
    cases hres : resolveExtra env txin.prevout with
    | none =>
      constructor
      · intro h
        simp only [sumExtraInputs, hres] at h
        exact Sum.noConfusion h
      · rintro ⟨h1, _⟩
        rcases h1 txin (List.mem_cons_self txin rest) with ⟨c', hc', _, _⟩
        rw [hres] at hc'
        exact Option.noConfusion hc'
    | some c =>
      by_cases ht : c.nType = OutputType.standard
      · by_cases hs : k = c.out.scriptPubKey
        · have hstep : sumExtraInputs env (txin :: rest) k a =
              sumExtraInputs env rest k (a + c.out.nValue) := by
            simp only [sumExtraInputs, hres]
            rw [if_neg (not_not_intro ht), if_neg (not_not_intro hs)]
          have hsum : extrasSum env (txin :: rest) =
              c.out.nValue + extrasSum env rest := by
            simp [extrasSum, hres]
          have hhead : extrasResolve env k (txin :: rest) ↔
              extrasResolve env k rest := by
            simp only [extrasResolve, List.forall_mem_cons]
            constructor
            · rintro ⟨_, h2⟩; exact h2
            · intro h2; exact ⟨⟨c, hres, ht, hs.symm⟩, h2⟩
          rw [hstep, ih, hsum, hhead]
          constructor <;> rintro ⟨h1, h2⟩ <;> exact ⟨h1, by omega⟩
        · have hstep : sumExtraInputs env (txin :: rest) k a =
              .inl (.reject 100 "mixed-prevout-scripts") := by
            simp only [sumExtraInputs, hres]
            rw [if_neg (not_not_intro ht), if_pos hs]
          rw [hstep]
          constructor
          · intro h; exact Sum.noConfusion h
          · rintro ⟨h1, _⟩
            rcases h1 txin (List.mem_cons_self txin rest) with ⟨c', hc', _, hk⟩
            rw [hres] at hc'
            cases hc'
            exact absurd hk.symm hs
      · have hstep : sumExtraInputs env (txin :: rest) k a =
            .inl (.reject 100 "invalid-prevout") := by
          simp only [sumExtraInputs, hres]
          rw [if_pos ht]
        rw [hstep]
        constructor
        · intro h; exact Sum.noConfusion h
        · rintro ⟨h1, _⟩
          rcases h1 txin (List.mem_cons_self txin rest) with ⟨c', hc', hty, _⟩
          rw [hres] at hc'
          cases hc'
          exact absurd hty ht

theorem sumOutputs_some_iff (k : Script) (outs : List TxOutRec) :
    ∀ (a v : Int), sumOutputs outs k a = some v ↔
      (outputsWellTyped outs ∧ v = a + kernelOutSum outs k) := by
  induction outs with
  | nil =>
    intro a v
    simp only [sumOutputs, Option.some.injEq, outputsWellTyped,
      List.not_mem_nil, false_implies, implies_true, true_and, kernelOutSum,
      List.map_nil, List.sum_nil, add_zero]
    exact eq_comm
  | cons o rest ih =>
    intro a v
    have hwtS : o.nType = OutputType.standard ∨ o.nType = OutputType.data →
        (outputsWellTyped (o :: rest) ↔ outputsWellTyped rest) := by
      intro hok
      simp only [outputsWellTyped, List.forall_mem_cons]
      constructor
      · rintro ⟨_, h2⟩; exact h2
      · intro h2; exact ⟨hok, h2⟩
    by_cases ht : o.nType = OutputType.standard
    · cases hsp : o.scriptPubKey with
      | none =>
        have hstep : sumOutputs (o :: rest) k a = sumOutputs rest k a := by
          simp only [sumOutputs, hsp]
          rw [if_neg (not_not_intro ht)]
        have hsum : kernelOutSum (o :: rest) k = kernelOutSum rest k := by
          simp only [kernelOutSum, List.map_cons, List.sum_cons]
          rw [if_neg fun hc => by rw [hsp] at hc; exact Option.noConfusion hc.2]
          omega
        rw [hstep, ih, hsum, hwtS (Or.inl ht)]
      | some s =>
        by_cases hs : s = k
        · have hstep : sumOutputs (o :: rest) k a =
              sumOutputs rest k (a + o.nValue) := by
            simp only [sumOutputs, hsp]
            rw [if_neg (not_not_intro ht), if_pos hs]
          have hsum : kernelOutSum (o :: rest) k =
              o.nValue + kernelOutSum rest k := by
            simp only [kernelOutSum, List.map_cons, List.sum_cons]
            rw [if_pos ⟨ht, by rw [hsp, hs]⟩]
          rw [hstep, ih, hsum, hwtS (Or.inl ht)]
          constructor <;> rintro ⟨h1, h2⟩ <;> exact ⟨h1, by omega⟩
        · have hstep : sumOutputs (o :: rest) k a = sumOutputs rest k a := by
            simp only [sumOutputs, hsp]
            rw [if_neg (not_not_intro ht), if_neg hs]
          have hsum : kernelOutSum (o :: rest) k = kernelOutSum rest k := by
            simp only [kernelOutSum, List.map_cons, List.sum_cons]
            rw [if_neg fun hc => by
              rw [hsp] at hc
              exact hs (Option.some.inj hc.2)]
            omega
          rw [hstep, ih, hsum, hwtS (Or.inl ht)]
    · by_cases hd : o.nType = OutputType.data
      · have hstep : sumOutputs (o :: rest) k a = sumOutputs rest k a := by
          simp only [sumOutputs]
          rw [if_pos ht, if_neg (not_not_intro hd)]
        have hsum : kernelOutSum (o :: rest) k = kernelOutSum rest k := by
          simp only [kernelOutSum, List.map_cons, List.sum_cons]
          rw [if_neg fun hc => ht hc.1]
          omega
        rw [hstep, ih, hsum, hwtS (Or.inr hd)]
      · have hstep : sumOutputs (o :: rest) k a = none := by
          simp only [sumOutputs]
          rw [if_pos ht, if_pos hd]
        rw [hstep]
        constructor
        · intro h; exact Option.noConfusion h
        · rintro ⟨h1, _⟩
          rcases h1 o (List.mem_cons_self o rest) with hty | hty
          · exact absurd hty ht
          · exact absurd hty hd

theorem cposTail_cases (env : Env) (tx : Tx) (rest : List TxIn) (k : Script)
    (amount : Int) :
    cposTail env tx rest k amount = .accept ∨
    cposTail env tx rest k amount = .reject 20 "prevout-not-in-chain" ∨
    cposTail env tx rest k amount = .reject 100 "invalid-prevout" ∨
    cposTail env tx rest k amount = .reject 100 "mixed-prevout-scripts" ∨
    cposTail env tx rest k amount = .reject 100 "bad-output-type" ∨
    cposTail env tx rest k amount = .reject 100 "verify-amount-script-failed" := by
  cases h : sumExtraInputs env rest k amount with
  | inl r =>
    simp only [cposTail, h]
    rcases sumExtraInputs_inl env k rest amount r h with h1 | h1 | h1 <;>
      rw [h1] <;> tauto
  | inr t =>
    cases ho : sumOutputs tx.vpout k 0 with
    | none => simp only [cposTail, h, ho]; tauto
    | some v =>
      simp only [cposTail, h, ho]
      by_cases hv : v < t
      · rw [if_pos hv]; tauto
      · rw [if_neg hv]; tauto

theorem cposTail_accept_iff (env : Env) (tx : Tx) (rest : List TxIn)
    (k : Script) (amount : Int) :
    cposTail env tx rest k amount = .accept ↔
      (extrasResolve env k rest ∧ outputsWellTyped tx.vpout ∧
       amount + extrasSum env rest ≤ kernelOutSum tx.vpout k) := by
  cases h : sumExtraInputs env rest k amount with
  | inl r =>
    simp only [cposTail, h]
    constructor
    · intro hacc
      rcases sumExtraInputs_inl env k rest amount r h with h1 | h1 | h1 <;>
        rw [h1] at hacc <;> exact Res.noConfusion hacc
    · rintro ⟨h1, _, _⟩
      have : sumExtraInputs env rest k amount = .inr (amount + extrasSum env rest) :=
        (sumExtraInputs_inr_iff env k rest amount _).mpr ⟨h1, rfl⟩
      rw [h] at this
      exact Sum.noConfusion this
  | inr t =>
    have hchar := (sumExtraInputs_inr_iff env k rest amount t).mp h
    cases ho : sumOutputs tx.vpout k 0 with
    | none =>
      simp only [cposTail, h, ho]
      constructor
      · intro hacc; exact Res.noConfusion hacc
      · rintro ⟨_, h2, _⟩
        have : sumOutputs tx.vpout k 0 = some (0 + kernelOutSum tx.vpout k) :=
          (sumOutputs_some_iff k tx.vpout 0 _).mpr ⟨h2, rfl⟩
        rw [ho] at this
        exact Option.noConfusion this
    | some v =>
      have hv := (sumOutputs_some_iff k tx.vpout 0 v).mp ho
      simp only [cposTail, h, ho]
      by_cases hlt : v < t
      · rw [if_pos hlt]
        constructor
        · intro hacc; exact Res.noConfusion hacc
        · rintro ⟨_, _, h3⟩
          omega
      · rw [if_neg hlt]
        constructor
        · intro _
          refine ⟨hchar.1, hv.1, ?_⟩
          omega
        · intro _; rfl

theorem checkProofOfStake_resolved (env : Env) (P : BlockIndex) (tx : Tx)
    (txin : TxIn) (rest : List TxIn) (nTime : Int) (nBits : Nat) (coin : Coin)
    (flag : Bool)
    (hvin : tx.vin = txin :: rest) (hcs : tx.isCoinStake = true)
    (hres : resolveKernel env P txin.prevout = .inr (coin, flag)) :
    checkProofOfStake env P tx nTime nBits =
      (cposAfterResolve env P tx txin rest nTime nBits coin, flag) := by
  simp [checkProofOfStake, hvin, hcs, hres]

theorem cposAfterResolve_reduce (env : Env) (P : BlockIndex) (tx : Tx)
    (txin : TxIn) (rest : List TxIn) (nTime : Int) (nBits : Nat) (coin : Coin)
    (pindex : BlockIndex)
    (htype : coin.nType = OutputType.standard)
    (hchain : env.chain coin.nHeight = some pindex)
    (hdepth : ¬ ((P.nHeight : Int) - (coin.nHeight : Int) <
      min ((env.stakeMinConfirmations : Int) - 1) ((P.nHeight / 2 : Nat) : Int)))
    (hscript : env.verifyScript txin coin.out.scriptPubKey coin.out.nValue = true) :
    cposAfterResolve env P tx txin rest nTime nBits coin =
      (if !(checkStakeKernelHash env.H P nBits (pindex.nTime % 2 ^ 32)
          coin.out.nValue txin.prevout ((nTime.emod (2 ^ 32)).toNat)).isOk then
        .reject 1 "check-kernel-failed"
       else if env.hasIsCoinstakeOp coin.out.scriptPubKey then
        cposTail env tx rest coin.out.scriptPubKey coin.out.nValue
       else .accept) := by
  simp only [cposAfterResolve, hchain]
  rw [if_neg (not_not_intro htype)]
  rw [if_neg hdepth]
  rw [hscript]
  simp

/-- C1: In `CheckProofOfStake`, after the structural, resolution, depth
and script checks pass and the kernel check reaches its target comparison,
the transaction is rejected as `check-kernel-failed` with DoS weight
exactly 1 (never higher) iff the proof hash exceeds the weighted target;
equivalently, the kernel check succeeds iff
`hash_pos <= weighted_target`. -/
theorem checkProofOfStake_kernel_failed_iff (env : Env) (P : BlockIndex)
    (tx : Tx) (txin : TxIn) (rest : List TxIn) (nTime : Int) (nBits : Nat)
    (coin : Coin) (flag : Bool) (pindex : BlockIndex)
    (hvin : tx.vin = txin :: rest) (hcs : tx.isCoinStake = true)
    (hres : resolveKernel env P txin.prevout = .inr (coin, flag))
    (htype : coin.nType = OutputType.standard)
    (hchain : env.chain coin.nHeight = some pindex)
    (hdepth : ¬ ((P.nHeight : Int) - (coin.nHeight : Int) <
      min ((env.stakeMinConfirmations : Int) - 1) ((P.nHeight / 2 : Nat) : Int)))
    (hscript : env.verifyScript txin coin.out.scriptPubKey coin.out.nValue = true)
    (htime : ¬ ((nTime.emod (2 ^ 32)).toNat < pindex.nTime % 2 ^ 32))
    (hneg : (decodeCompact nBits).2.1 = false)
    (hover : (decodeCompact nBits).2.2 = false)
    (hz : (decodeCompact nBits).1 ≠ 0) :
    (checkProofOfStake env P tx nTime nBits).1 =
        .reject 1 "check-kernel-failed" ↔
      weightedTarget nBits coin.out.nValue <
        kernelHashValue env.H P (pindex.nTime % 2 ^ 32) txin.prevout
          ((nTime.emod (2 ^ 32)).toNat) := by
  rw [checkProofOfStake_resolved env P tx txin rest nTime nBits coin flag
    hvin hcs hres]
  show cposAfterResolve env P tx txin rest nTime nBits coin = _ ↔ _
  rw [cposAfterResolve_reduce env P tx txin rest nTime nBits coin pindex
    htype hchain hdepth hscript]
  rw [checkStakeKernelHash_eq env.H P nBits (pindex.nTime % 2 ^ 32)
    coin.out.nValue txin.prevout ((nTime.emod (2 ^ 32)).toNat) htime hneg hover hz]
  by_cases hcmp : weightedTarget nBits coin.out.nValue <
      kernelHashValue env.H P (pindex.nTime % 2 ^ 32) txin.prevout
        ((nTime.emod (2 ^ 32)).toNat)
  · rw [if_pos hcmp]
    exact iff_of_true (by simp [SKHResult.isOk]) hcmp
  · rw [if_neg hcmp]
    simp only [SKHResult.isOk, Bool.not_true, Bool.false_eq_true, if_false]
    refine iff_of_false ?_ hcmp
    intro heq
    by_cases hop : env.hasIsCoinstakeOp coin.out.scriptPubKey
    · rw [if_pos hop] at heq
      rcases cposTail_cases env tx rest coin.out.scriptPubKey coin.out.nValue
        with h1 | h1 | h1 | h1 | h1 | h1 <;>
        rw [h1] at heq <;> exact absurd heq (by decide)
    · rw [if_neg hop] at heq
      exact Res.noConfusion heq

/-- C1 witness: a concrete run through all checks at which the iff holds
(here the hash is 0 and the check succeeds). -/
theorem checkProofOfStake_kernel_failed_iff_witness :
    (checkProofOfStake cEnv cPrev cTx 200 0x03010000).1 =
        .reject 1 "check-kernel-failed" ↔
      weightedTarget 0x03010000 cCoin.out.nValue <
        kernelHashValue cEnv.H cPrev (cPrev.nTime % 2 ^ 32) cTxIn.prevout
          (((200 : Int).emod (2 ^ 32)).toNat) :=
  checkProofOfStake_kernel_failed_iff cEnv cPrev cTx cTxIn [] 200 0x03010000
    cCoin false cPrev rfl rfl (by decide) rfl rfl (by decide) rfl (by decide)
    (by decide) (by decide) (by decide)

/-- C2 counterexample: a kernel check where the proof hash equals the
weighted target exactly (hash 5, target 1, amount 5) is accepted, so
validity is not `hash_pos < target * stake_amount` as claimed — equality
is a valid proof. -/
theorem kernel_hash_equal_target_accepted :
    checkStakeKernelHash (fun _ => 5) ⟨10, 0, 0⟩ 0x01010000 0 5 ⟨0, 0⟩ 0 =
      .ok 5 5 ∧
    weightedTarget 0x01010000 5 = 5 ∧ ¬ (5 < 5) := by decide

/-- C2 (amended): a kernel proof is valid iff
`hash_pos <= target * stake_amount` (non-strict), where the product is the
256-bit-truncated weighted target. -/
theorem kernel_valid_iff_hash_le_target (H : List Nat → Nat) (P : BlockIndex)
    (nBits bft : Nat) (amt : Int) (po : OutPoint) (t : Nat)
    (htime : ¬ t < bft)
    (hneg : (decodeCompact nBits).2.1 = false)
    (hover : (decodeCompact nBits).2.2 = false)
    (hz : (decodeCompact nBits).1 ≠ 0) :
    (checkStakeKernelHash H P nBits bft amt po t).isOk = true ↔
      kernelHashValue H P bft po t ≤ weightedTarget nBits amt :=
  checkStakeKernelHash_isOk_iff H P nBits bft amt po t htime hneg hover hz

/-- C2 witness: the amended iff at a concrete input (hash 0, target
65536, amount 5). -/
theorem kernel_valid_iff_hash_le_target_witness :
    (checkStakeKernelHash (fun _ => 0) cPrev 0x03010000 100 5 cOut 200).isOk = true ↔
      kernelHashValue (fun _ => 0) cPrev 100 cOut 200 ≤ weightedTarget 0x03010000 5 :=
  kernel_valid_iff_hash_le_target (fun _ => 0) cPrev 0x03010000 100 5 cOut 200
    (by decide) (by decide) (by decide) (by decide)

/-- C3: once the kernel check reaches the hash computation, the proof
hash is the chain hash of the kernel preimage, which is exactly 76 bytes:
the modifier (32 LE bytes), the kernel block time (4 LE bytes), the
prevout txid (32 LE bytes), the prevout index (4 LE bytes) and the block
time (4 LE bytes), in that order. -/
theorem kernel_hash_preimage_structure (H : List Nat → Nat) (P : BlockIndex)
    (nBits bft : Nat) (amt : Int) (po : OutPoint) (t : Nat)
    (htime : ¬ t < bft)
    (hneg : (decodeCompact nBits).2.1 = false)
    (hover : (decodeCompact nBits).2.2 = false)
    (hz : (decodeCompact nBits).1 ≠ 0) :
    (checkStakeKernelHash H P nBits bft amt po t).getHashPos =
      some (H (kernelPreimage P.bnStakeModifier bft po.hash po.n t) % 2 ^ 256) ∧
    (kernelPreimage P.bnStakeModifier bft po.hash po.n t).length = 76 ∧
    kernelPreimage P.bnStakeModifier bft po.hash po.n t =
      ser256LE P.bnStakeModifier ++ ser32LE bft ++ ser256LE po.hash ++
        ser32LE po.n ++ ser32LE t := by
  refine ⟨?_, kernelPreimage_length _ _ _ _ _, rfl⟩
  rw [checkStakeKernelHash_eq H P nBits bft amt po t htime hneg hover hz]
  split <;> rfl

/-- C3 witness: the preimage structure at a concrete input. -/
theorem kernel_hash_preimage_structure_witness :
    (checkStakeKernelHash (fun _ => 0) cPrev 0x03010000 100 5 cOut 200).getHashPos =
      some ((fun _ : List Nat => 0) (kernelPreimage cPrev.bnStakeModifier 100
        cOut.hash cOut.n 200) % 2 ^ 256) ∧
    (kernelPreimage cPrev.bnStakeModifier 100 cOut.hash cOut.n 200).length = 76 ∧
    kernelPreimage cPrev.bnStakeModifier 100 cOut.hash cOut.n 200 =
      ser256LE cPrev.bnStakeModifier ++ ser32LE 100 ++ ser256LE cOut.hash ++
        ser32LE cOut.n ++ ser32LE 200 :=
  kernel_hash_preimage_structure (fun _ => 0) cPrev 0x03010000 100 5 cOut 200
    (by decide) (by decide) (by decide) (by decide)

/-- C4 counterexample: the weighted-target multiplication wraps modulo
`2 ^ 256`.  With target `2 ^ 255` and hash 1, a stake of 1 wins but a
stake of 2 loses (its wrapped target is 0), although the
arbitrary-precision product `2 ^ 256` would exceed the hash — a larger
stake yields a smaller effective target, contradicting the claim. -/
theorem larger_stake_smaller_effective_target :
    checkStakeKernelHash (fun _ => 1) ⟨10, 0, 0⟩ 0x21008000 0 1 ⟨0, 0⟩ 0 =
      .ok 1 (2 ^ 255) ∧
    checkStakeKernelHash (fun _ => 1) ⟨10, 0, 0⟩ 0x21008000 0 2 ⟨0, 0⟩ 0 =
      .kernelFailed 1 0 ∧
    (1 : Nat) ≤ (decodeCompact 0x21008000).1 * ((2 : Int).emod (2 ^ 64)).toNat := by
  decide

/-- C4 (amended): the comparison `hash_pos > weighted_target` is computed
with the product `target * stake_amount` reduced modulo `2 ^ 256` (the
256-bit register wraps), so a larger stake can yield a smaller effective
target. -/
theorem kernel_target_multiplication_wraps (H : List Nat → Nat)
    (P : BlockIndex) (nBits bft : Nat) (amt : Int) (po : OutPoint) (t : Nat)
    (htime : ¬ t < bft)
    (hneg : (decodeCompact nBits).2.1 = false)
    (hover : (decodeCompact nBits).2.2 = false)
    (hz : (decodeCompact nBits).1 ≠ 0) :
    checkStakeKernelHash H P nBits bft amt po t =
      if ((decodeCompact nBits).1 * (amt.emod (2 ^ 64)).toNat) % 2 ^ 256 <
          kernelHashValue H P bft po t then
        .kernelFailed (kernelHashValue H P bft po t)
          (((decodeCompact nBits).1 * (amt.emod (2 ^ 64)).toNat) % 2 ^ 256)
      else
        .ok (kernelHashValue H P bft po t)
          (((decodeCompact nBits).1 * (amt.emod (2 ^ 64)).toNat) % 2 ^ 256) :=
  checkStakeKernelHash_eq H P nBits bft amt po t htime hneg hover hz

/-- C4 witness: the wrapped-product form at a concrete input. -/
theorem kernel_target_multiplication_wraps_witness :
    checkStakeKernelHash (fun _ => 1) cPrev 0x21008000 100 2 cOut 200 =
      if ((decodeCompact 0x21008000).1 * ((2 : Int).emod (2 ^ 64)).toNat) % 2 ^ 256 <
          kernelHashValue (fun _ => 1) cPrev 100 cOut 200 then
        .kernelFailed (kernelHashValue (fun _ => 1) cPrev 100 cOut 200)
          (((decodeCompact 0x21008000).1 * ((2 : Int).emod (2 ^ 64)).toNat) % 2 ^ 256)
      else
        .ok (kernelHashValue (fun _ => 1) cPrev 100 cOut 200)
          (((decodeCompact 0x21008000).1 * ((2 : Int).emod (2 ^ 64)).toNat) % 2 ^ 256) :=
  kernel_target_multiplication_wraps (fun _ => 1) cPrev 0x21008000 100 2 cOut 200
    (by decide) (by decide) (by decide) (by decide)

/-- C5: when the kernel script carries the coinstake-op pattern (and the
earlier checks pass), `CheckProofOfStake` accepts iff every extra input
resolves to a standard coin whose script equals the kernel script, every
non-standard output is a data output, and the standard outputs paying the
kernel script sum to at least the total input value (kernel included). -/
theorem coinstake_op_split_accept_iff (env : Env) (P : BlockIndex)
    (tx : Tx) (txin : TxIn) (rest : List TxIn) (nTime : Int) (nBits : Nat)
    (coin : Coin) (flag : Bool) (pindex : BlockIndex)
    (hvin : tx.vin = txin :: rest) (hcs : tx.isCoinStake = true)
    (hres : resolveKernel env P txin.prevout = .inr (coin, flag))
    (htype : coin.nType = OutputType.standard)
    (hchain : env.chain coin.nHeight = some pindex)
    (hdepth : ¬ ((P.nHeight : Int) - (coin.nHeight : Int) <
      min ((env.stakeMinConfirmations : Int) - 1) ((P.nHeight / 2 : Nat) : Int)))
    (hscript : env.verifyScript txin coin.out.scriptPubKey coin.out.nValue = true)
    (hok : (checkStakeKernelHash env.H P nBits (pindex.nTime % 2 ^ 32)
      coin.out.nValue txin.prevout ((nTime.emod (2 ^ 32)).toNat)).isOk = true)
    (hop : env.hasIsCoinstakeOp coin.out.scriptPubKey = true) :
    (checkProofOfStake env P tx nTime nBits).1 = .accept ↔
      (extrasResolve env coin.out.scriptPubKey rest ∧
       outputsWellTyped tx.vpout ∧
       coin.out.nValue + extrasSum env rest ≤
         kernelOutSum tx.vpout coin.out.scriptPubKey) := by
  rw [checkProofOfStake_resolved env P tx txin rest nTime nBits coin flag
    hvin hcs hres]
  show cposAfterResolve env P tx txin rest nTime nBits coin = _ ↔ _
  rw [cposAfterResolve_reduce env P tx txin rest nTime nBits coin pindex
    htype hchain hdepth hscript]
  rw [hok]
  simp only [Bool.not_true, Bool.false_eq_true, if_false]
  rw [if_pos hop]
  exact cposTail_accept_iff env tx rest coin.out.scriptPubKey coin.out.nValue

/-- C5 witness: a concrete coinstake-op transaction paying the kernel
script enough, at which the iff holds. -/
theorem coinstake_op_split_accept_iff_witness :
    (checkProofOfStake cEnvCs cPrev cTxPay 200 0x03010000).1 = .accept ↔
      (extrasResolve cEnvCs cCoin.out.scriptPubKey [] ∧
       outputsWellTyped cTxPay.vpout ∧
       cCoin.out.nValue + extrasSum cEnvCs [] ≤
         kernelOutSum cTxPay.vpout cCoin.out.scriptPubKey) :=
  coinstake_op_split_accept_iff cEnvCs cPrev cTxPay cTxIn [] 200 0x03010000
    cCoin false cPrev rfl rfl (by decide) rfl rfl (by decide) rfl (by decide) rfl

/-- C6: with the kernel coin resolved to a standard coin whose origin
block is on the active chain, `CheckProofOfStake` rejects with
`invalid-stake-depth` (DoS 100) iff the coin's depth
`pindexPrev.height - coin.height` is below
`min(stake_min_confirmations - 1, pindexPrev.height / 2)`; otherwise the
depth check passes. -/
theorem stake_depth_check_iff (env : Env) (P : BlockIndex)
    (tx : Tx) (txin : TxIn) (rest : List TxIn) (nTime : Int) (nBits : Nat)
    (coin : Coin) (flag : Bool) (pindex : BlockIndex)
    (hvin : tx.vin = txin :: rest) (hcs : tx.isCoinStake = true)
    (hres : resolveKernel env P txin.prevout = .inr (coin, flag))
    (htype : coin.nType = OutputType.standard)
    (hchain : env.chain coin.nHeight = some pindex) :
    (checkProofOfStake env P tx nTime nBits).1 =
        .reject 100 "invalid-stake-depth" ↔
      (P.nHeight : Int) - (coin.nHeight : Int) <
        min ((env.stakeMinConfirmations : Int) - 1) ((P.nHeight / 2 : Nat) : Int) := by
  rw [checkProofOfStake_resolved env P tx txin rest nTime nBits coin flag
    hvin hcs hres]
  show cposAfterResolve env P tx txin rest nTime nBits coin = _ ↔ _
  simp only [cposAfterResolve, hchain]
  rw [if_neg (not_not_intro htype)]
  by_cases hd : (P.nHeight : Int) - (coin.nHeight : Int) <
      min ((env.stakeMinConfirmations : Int) - 1) ((P.nHeight / 2 : Nat) : Int)
  · rw [if_pos hd]
    exact iff_of_true rfl hd
  · rw [if_neg hd]
    refine iff_of_false ?_ hd
    intro heq
    split at heq
    · exact absurd heq (by decide)
    · split at heq
      · exact absurd heq (by decide)
      · split at heq
        · rcases cposTail_cases env tx rest coin.out.scriptPubKey
            coin.out.nValue with h1 | h1 | h1 | h1 | h1 | h1 <;>
            rw [h1] at heq <;> exact absurd heq (by decide)
        · exact Res.noConfusion heq

/-- C6 witness: a concrete run with a kernel coin above the tip (negative
depth), where both sides of the iff are true. -/
theorem stake_depth_check_iff_witness :
    (checkProofOfStake cEnvDeep cPrev cTx 200 0x03010000).1 =
        .reject 100 "invalid-stake-depth" ↔
      (cPrev.nHeight : Int) - (cCoinH5.nHeight : Int) <
        min ((cEnvDeep.stakeMinConfirmations : Int) - 1)
          ((cPrev.nHeight / 2 : Nat) : Int) :=
  stake_depth_check_iff cEnvDeep cPrev cTx cTxIn [] 200 0x03010000
    cCoinH5 false cPrev rfl rfl (by decide) rfl rfl

/-- C7: when the kernel prevout is absent or spent in the live UTXO set,
`CheckProofOfStake` rejects `prevout-not-found` (DoS 20) if the spent
archive also misses; on an archive hit it rejects `invalid-prevout`
(DoS 100) iff `!verifying_db ∧ pindexPrev.height > spent_height ∧
pindexPrev.height - spent_height > MAX_REORG_DEPTH`, and in every other
archive-hit case it uses the archived coin and sets
`BLOCK_STAKE_KERNEL_SPENT`. -/
theorem spent_kernel_resolution (env : Env) (P : BlockIndex) (tx : Tx)
    (txin : TxIn) (rest : List TxIn) (nTime : Int) (nBits : Nat)
    (hvin : tx.vin = txin :: rest) (hcs : tx.isCoinStake = true)
    (hmiss : env.getCoin txin.prevout = none ∨
      ∃ c, env.getCoin txin.prevout = some c ∧ c.isSpent = true) :
    (env.readSpentCache txin.prevout = none →
      checkProofOfStake env P tx nTime nBits =
        (.reject 20 "prevout-not-found", false)) ∧
    (∀ sc : SpentCoin, env.readSpentCache txin.prevout = some sc →
      ((checkProofOfStake env P tx nTime nBits =
          (.reject 100 "invalid-prevout", false) ↔
        (env.fVerifyingDB = false ∧ sc.spentHeight < P.nHeight ∧
         env.maxReorgDepth < P.nHeight - sc.spentHeight)) ∧
       (¬ (env.fVerifyingDB = false ∧ sc.spentHeight < P.nHeight ∧
           env.maxReorgDepth < P.nHeight - sc.spentHeight) →
         resolveKernel env P txin.prevout = .inr (sc.coin, true) ∧
         (checkProofOfStake env P tx nTime nBits).2 = true))) := by
  have hrk : resolveKernel env P txin.prevout =
      (match env.readSpentCache txin.prevout with
       | none => .inl (.reject 20 "prevout-not-found")
       | some sc =>
         if (!env.fVerifyingDB) && decide (sc.spentHeight < P.nHeight)
             && decide (env.maxReorgDepth < P.nHeight - sc.spentHeight)
         then .inl (.reject 100 "invalid-prevout")
         else .inr (sc.coin, true)) := by
    rcases hmiss with h | ⟨c, hc, hsp⟩
    · simp only [resolveKernel, h]
    · simp only [resolveKernel, hc, hsp, if_true]
  constructor
  · intro hnone
    have hinl : resolveKernel env P txin.prevout =
        .inl (.reject 20 "prevout-not-found") := by
      rw [hrk, hnone]
    simp [checkProofOfStake, hvin, hcs, hinl]
  · intro sc hsc
    have hbool : ((!env.fVerifyingDB) && decide (sc.spentHeight < P.nHeight)
        && decide (env.maxReorgDepth < P.nHeight - sc.spentHeight)) = true ↔
        (env.fVerifyingDB = false ∧ sc.spentHeight < P.nHeight ∧
         env.maxReorgDepth < P.nHeight - sc.spentHeight) := by
      simp [Bool.and_eq_true, and_assoc]
    by_cases hcond : env.fVerifyingDB = false ∧ sc.spentHeight < P.nHeight ∧
        env.maxReorgDepth < P.nHeight - sc.spentHeight
    · have hinl : resolveKernel env P txin.prevout =
          .inl (.reject 100 "invalid-prevout") := by
        rw [hrk, hsc]
        exact if_pos (hbool.mpr hcond)
      refine ⟨iff_of_true (by simp [checkProofOfStake, hvin, hcs, hinl]) hcond,
        fun hn => absurd hcond hn⟩
    · have hinr : resolveKernel env P txin.prevout = .inr (sc.coin, true) := by
        rw [hrk, hsc]
        exact if_neg (fun h => hcond (hbool.mp h))
      constructor
      · refine iff_of_false ?_ hcond
        intro heq
        rw [checkProofOfStake_resolved env P tx txin rest nTime nBits sc.coin
          true hvin hcs hinr] at heq
        simp at heq
      · intro _
        refine ⟨hinr, ?_⟩
        rw [checkProofOfStake_resolved env P tx txin rest nTime nBits sc.coin
          true hvin hcs hinr]

/-- C7 witness: a concrete archive hit within the reorg window — the
archived coin is used and the kernel-spent flag is set. -/
theorem spent_kernel_resolution_witness :
    resolveKernel cEnvSpent cPrev cTxIn.prevout = .inr (cCoin, true) ∧
    (checkProofOfStake cEnvSpent cPrev cTx 200 0x03010000).2 = true :=
  ((spent_kernel_resolution cEnvSpent cPrev cTx cTxIn [] 200 0x03010000
    rfl rfl (Or.inl rfl)).2 ⟨cCoin, 0⟩ rfl).2 (by decide)

/-- C8 counterexample: with a negative compact target (nBits
`0x01810000`) and all earlier checks passing, `CheckProofOfStake` rejects
with DoS weight 1 as `check-kernel-failed`, not with DoS weight 100 as
claimed — `CheckStakeKernelHash` returns a bare `false` for the
`SetCompact` failure and the caller cannot distinguish it from a losing
ticket. -/
theorem setCompact_failure_rejected_dos1 :
    (decodeCompact 0x01810000).2.1 = true ∧
    checkProofOfStake cEnv cPrev cTx 200 0x01810000 =
      (.reject 1 "check-kernel-failed", false) := by decide

/-- C8 (amended): when `decode_compact` yields negative, overflow or a
zero target, the proof is rejected, but the rejection surfaces from
`CheckProofOfStake` as `check-kernel-failed` with DoS weight 1. -/
theorem setCompact_failure_rejected (env : Env) (P : BlockIndex)
    (tx : Tx) (txin : TxIn) (rest : List TxIn) (nTime : Int) (nBits : Nat)
    (coin : Coin) (flag : Bool) (pindex : BlockIndex)
    (hvin : tx.vin = txin :: rest) (hcs : tx.isCoinStake = true)
    (hres : resolveKernel env P txin.prevout = .inr (coin, flag))
    (htype : coin.nType = OutputType.standard)
    (hchain : env.chain coin.nHeight = some pindex)
    (hdepth : ¬ ((P.nHeight : Int) - (coin.nHeight : Int) <
      min ((env.stakeMinConfirmations : Int) - 1) ((P.nHeight / 2 : Nat) : Int)))
    (hscript : env.verifyScript txin coin.out.scriptPubKey coin.out.nValue = true)
    (hfail : (decodeCompact nBits).2.1 = true ∨ (decodeCompact nBits).2.2 = true ∨
      (decodeCompact nBits).1 = 0) :
    (checkProofOfStake env P tx nTime nBits).1 =
      .reject 1 "check-kernel-failed" := by
  rw [checkProofOfStake_resolved env P tx txin rest nTime nBits coin flag
    hvin hcs hres]
  show cposAfterResolve env P tx txin rest nTime nBits coin = _
  rw [cposAfterResolve_reduce env P tx txin rest nTime nBits coin pindex
    htype hchain hdepth hscript]
  have hko : (checkStakeKernelHash env.H P nBits (pindex.nTime % 2 ^ 32)
      coin.out.nValue txin.prevout ((nTime.emod (2 ^ 32)).toNat)).isOk = false := by
    unfold checkStakeKernelHash
    split
    · rfl
    · have hcond : ((decodeCompact nBits).2.1 || (decodeCompact nBits).2.2 ||
          ((decodeCompact nBits).1 == 0)) = true := by
        rcases hfail with h | h | h <;> simp [h]
      simp only [hcond, if_true]
      rfl
  rw [hko]
  simp

/-- C8 witness: the amended rejection at a concrete input with a negative
compact target, derived through the theorem. -/
theorem setCompact_failure_rejected_witness :
    (checkProofOfStake cEnv cPrev cTx 200 0x01810000).1 =
      .reject 1 "check-kernel-failed" :=
  setCompact_failure_rejected cEnv cPrev cTx cTxIn [] 200 0x01810000
    cCoin false cPrev rfl rfl (by decide) rfl rfl (by decide) rfl
    (Or.inl (by decide))

/-- C9: a kernel check whose block time is below the kernel block time
fails as the distinct `nTime violation` outcome, before the target or the
hash are computed (the result does not depend on the hash function or on
`nBits`); and any coinstake accepted by `CheckProofOfStake` satisfies
`block_time >= kernel_block_time`. -/
theorem time_monotonicity (H H2 : List Nat → Nat) (P : BlockIndex)
    (nBits nBits2 bft : Nat) (amt : Int) (po : OutPoint) (t : Nat)
    (env : Env) (P2 : BlockIndex) (tx : Tx) (txin : TxIn) (rest : List TxIn)
    (coin : Coin) (flag : Bool) (pindex : BlockIndex) (nT : Int) (nB : Nat) :
    (t < bft → checkStakeKernelHash H P nBits bft amt po t = .nTimeViolation ∧
      checkStakeKernelHash H P nBits bft amt po t =
        checkStakeKernelHash H2 P nBits2 bft amt po t) ∧
    (tx.vin = txin :: rest → tx.isCoinStake = true →
      resolveKernel env P2 txin.prevout = .inr (coin, flag) →
      env.chain coin.nHeight = some pindex →
      (checkProofOfStake env P2 tx nT nB).1 = .accept →
      pindex.nTime % 2 ^ 32 ≤ (nT.emod (2 ^ 32)).toNat) := by
  constructor
  · intro hlt
    constructor
    · unfold checkStakeKernelHash
      rw [if_pos hlt]
    · unfold checkStakeKernelHash
      rw [if_pos hlt, if_pos hlt]
  · intro hvin hcs hres hchain hacc
    rw [checkProofOfStake_resolved env P2 tx txin rest nT nB coin flag
      hvin hcs hres] at hacc
    by_contra hlt
    push_neg at hlt
    have hskh : checkStakeKernelHash env.H P2 nB (pindex.nTime % 2 ^ 32)
        coin.out.nValue txin.prevout ((nT.emod (2 ^ 32)).toNat) =
        .nTimeViolation := by
      unfold checkStakeKernelHash
      rw [if_pos hlt]
    have hacc2 : cposAfterResolve env P2 tx txin rest nT nB coin = .accept := hacc
    simp only [cposAfterResolve, hchain, hskh] at hacc2
    split at hacc2
    · exact Res.noConfusion hacc2
    · split at hacc2
      · exact Res.noConfusion hacc2
      · split at hacc2
        · exact Res.noConfusion hacc2
        · simp [SKHResult.isOk] at hacc2

/-- C9 witness: the nTime-violation outcome at `t = 50 < bft = 100`, and
time monotonicity on a concrete accepted coinstake whose kernel coin is
resolved from the spent-coin archive (kernel-spent flag set). -/
theorem time_monotonicity_witness :
    checkStakeKernelHash (fun _ => 0) cPrev 0x03010000 100 5 cOut 50 =
      .nTimeViolation ∧
    cPrev.nTime % 2 ^ 32 ≤ ((200 : Int).emod (2 ^ 32)).toNat :=
  ⟨((time_monotonicity (fun _ => 0) (fun _ => 1) cPrev 0x03010000 0x01010000
      100 5 cOut 50 cEnvSpent cPrev cTx cTxIn [] cCoin true cPrev 200
      0x03010000).1 (by decide)).1,
   (time_monotonicity (fun _ => 0) (fun _ => 1) cPrev 0x03010000 0x01010000
      100 5 cOut 50 cEnvSpent cPrev cTx cTxIn [] cCoin true cPrev 200
      0x03010000).2 rfl rfl (by decide) rfl (by decide)⟩

/-- C10: `CheckKernel` writes its `pBlockTime` out-pointer behind a null
guard but then dereferences it unconditionally when calling the
kernel-hash check, so whenever the prevout resolves to an unspent
standard coin at sufficient depth the call is well-defined iff
`pBlockTime` is non-null. -/
theorem checkKernel_needs_blocktime_pointer (env : Env) (P : BlockIndex)
    (nBits : Nat) (nTime : Int) (prevout : OutPoint) (coin : Coin)
    (pindex : BlockIndex)
    (hget : env.getCoin prevout = some coin)
    (htype : coin.nType = OutputType.standard)
    (hspent : coin.isSpent = false)
    (hchain : env.chain coin.nHeight = some pindex)
    (hdepth : ¬ ((P.nHeight : Int) - (coin.nHeight : Int) <
      min ((env.stakeMinConfirmations : Int) - 1) ((P.nHeight / 2 : Nat) : Int))) :
    checkKernel env P nBits nTime prevout none = none ∧
    ∀ v : Int, (checkKernel env P nBits nTime prevout (some v)).isSome = true := by
  constructor
  · simp only [checkKernel, hget, hspent, hchain, Bool.false_eq_true, if_false]
    rw [if_neg (not_not_intro htype), if_neg hdepth]
  · intro v
    simp only [checkKernel, hget, hspent, hchain, Bool.false_eq_true, if_false]
    rw [if_neg (not_not_intro htype), if_neg hdepth]
    rfl

/-- C10 witness: the null out-pointer is undefined and the non-null one
is defined, at a concrete environment. -/
theorem checkKernel_needs_blocktime_pointer_witness :
    checkKernel cEnv cPrev 0x03010000 200 cOut none = none ∧
    (checkKernel cEnv cPrev 0x03010000 200 cOut (some 7)).isSome = true :=
  ⟨(checkKernel_needs_blocktime_pointer cEnv cPrev 0x03010000 200 cOut cCoin
      cPrev rfl rfl rfl rfl (by decide)).1,
   (checkKernel_needs_blocktime_pointer cEnv cPrev 0x03010000 200 cOut cCoin
      cPrev rfl rfl rfl rfl (by decide)).2 7⟩

end PosKernel
